import Mathlib

/-!
Verification development for the burger_bae site crawler
(src/burgerbae_mapped2.py).

The development shallowly embeds the crawl-control subsystem:

* a model of `urllib.parse.urlparse` restricted to the components the
  program reads (scheme, netloc, path, query, fragment).  Parsing is
  fallible: CPython raises `ValueError("Invalid IPv6 URL")` when the
  netloc contains an unmatched square bracket, which we model with
  `Except`.  The params split of `urlparse` (which never affects netloc
  and is irrelevant to the claims below) and the WHATWG control-character
  stripping are omitted from the model.
* `is_internal_link`, `sanitize_folder_name` and the link filter of
  `extract_internal_links`, as in the source.
* the crawl loop `crawl_site` as a fuel-indexed state machine.  The page
  renderer (Playwright) is an external collaborator and enters the model
  as an oracle `render : String → Option (List String)` giving, per URL,
  the anchor hrefs of the rendered page (`none` = navigation raised).
  `hash_url` (a sha256 hex digest in the source) enters as an abstract
  fingerprint parameter `hashUrl : String → String`.
-/

/-- Characters allowed in a URL scheme, after the first character
(CPython `scheme_chars`): letters, digits, and the three marks. -/
def schemeChar (c : Char) : Bool :=
  c.isAlpha || c.isDigit || c == '+' || c == '-' || c == '.'

/-- Split a character list at the first occurrence of the colon:
`some (before, after)` when a colon is present, `none` otherwise. -/
def takeUntilColon : List Char → Option (List Char × List Char)
  | [] => none
  | c :: cs =>
    if c == ':' then some ([], cs)
    else
      match takeUntilColon cs with
      | none => none
      | some (pre, post) => some (c :: pre, post)

/-- Scheme detection of CPython `urlsplit`: if the text up to the first
colon is non-empty, starts with a letter and consists of scheme
characters, it is the scheme (lower-cased) and the rest follows the
colon; otherwise there is no scheme. -/
def splitScheme (cs : List Char) : List Char × List Char :=
  match takeUntilColon cs with
  | none => ([], cs)
  | some (pre, post) =>
    match pre with
    | [] => ([], cs)
    | c0 :: _ =>
      if c0.isAlpha && pre.all schemeChar then (pre.map Char.toLower, post)
      else ([], cs)

/-- CPython `_splitnetloc`: the netloc extends to the first of
the three delimiters, the remainder starts at that delimiter. -/
def splitnetloc (cs : List Char) : List Char × List Char :=
  (cs.takeWhile (fun c => !(c == '/' || c == '?' || c == '#')),
   cs.dropWhile (fun c => !(c == '/' || c == '?' || c == '#')))

/-- Split at the first occurrence of a delimiter character, dropping the
delimiter; the second component is empty when the delimiter is absent
(this is Python `str.split(d, 1)` specialised to our uses). -/
def splitOnFirst (d : Char) : List Char → List Char × List Char
  | [] => ([], [])
  | c :: cs =>
    if c == d then ([], cs)
    else
      let (b, a) := splitOnFirst d cs
      (c :: b, a)

/-- Result of `urlparse` restricted to the fields the program reads. -/
structure UrlSplit where
  scheme : String
  netloc : String
  path : String
  query : String
  fragment : String
deriving Repr, DecidableEq

/-- Model of `urllib.parse.urlparse`: scheme split, `//`-netloc split,
the Invalid-IPv6 bracket check (a raise, modelled as `Except.error`),
then fragment and query splits; what remains is the path. -/
def urlparseE (url : String) : Except String UrlSplit :=
  let cs := url.toList
  let (scheme, rest) := splitScheme cs
  let (netloc, rest2) :=
    match rest with
    | '/' :: '/' :: tl => splitnetloc tl
    | _ => ([], rest)
  if (netloc.contains '[' && !netloc.contains ']')
      || (netloc.contains ']' && !netloc.contains '[') then
    .error "Invalid IPv6 URL"
  else
    let (rest3, fragment) := splitOnFirst '#' rest2
    let (path, query) := splitOnFirst '?' rest3
    .ok ⟨scheme.asString, netloc.asString, path.asString,
         query.asString, fragment.asString⟩

/-- is_internal_link from the source:
`urlparse(base_url).netloc == urlparse(link_url).netloc`.
A parse failure of either argument propagates (the Python raises). -/
def is_internal_link (base_url link_url : String) : Except String Bool :=
  match urlparseE base_url with
  | .error e => .error e
  | .ok rb =>
    match urlparseE link_url with
    | .error e => .error e
    | .ok rl => .ok (rb.netloc == rl.netloc)

/-- Remove every leading and trailing slash (Python `str.strip("/")`). -/
def stripSlashes (cs : List Char) : List Char :=
  ((cs.dropWhile (fun c => c == '/')).reverse.dropWhile
    (fun c => c == '/')).reverse

/-- Folder name derived from a path component:
strip surrounding slashes, replace the remaining slashes by
underscores, and fall back to "index" when the result is empty. -/
def folderOfPath (path : String) : String :=
  let p := stripSlashes path.toList
  if p = [] then "index"
  else (p.map (fun c => if c == '/' then '_' else c)).asString

/-- sanitize_folder_name from the source:
`urlparse(url).path.strip("/").replace("/", "_") or "index"`.
The parse failure of `urlparse` propagates. -/
def sanitize_folder_name (url : String) : Except String String :=
  match urlparseE url with
  | .error e => .error e
  | .ok r => .ok (folderOfPath r.path)

/-- The crawl budget, `MAX_PAGES = 20` in the source configuration. -/
def MAX_PAGES : Nat := 20

/-- Link filter of `extract_internal_links`: the Python list
comprehension `[link for link in links if is_internal_link(base, link)]`.
It evaluates the classifier left to right and the first raise
propagates, discarding the whole result. -/
def filterInternal (base : String) : List String → Except String (List String)
  | [] => .ok []
  | l :: ls =>
    match is_internal_link base l with
    | .error e => .error e
    | .ok b =>
      match filterInternal base ls with
      | .error e => .error e
      | .ok rest => .ok (if b then l :: rest else rest)

/-- One page's fallible processing, the body of the `try` block up to
and including `extract_internal_links` (lines 120-140 of the source):
navigation (`page.goto` plus the DOM queries, collapsed into the
`render` oracle), then `sanitize_folder_name url` (whose `urlparse` can
raise), then the internal-link filter against `start_url`.  The
persistence steps (`save_html`, `append_to_csv`) are plain I/O and are
modelled as non-failing.  `.error ()` is the exception caught by the
`except` clause of the loop. -/
def processPage (start_url : String) (render : String → Option (List String))
    (url : String) : Except Unit (List String) :=
  match render url with
  | none => .error ()
  | some hrefs =>
    match urlparseE url with
    | .error _ => .error ()
    | .ok _ =>
      match filterInternal start_url hrefs with
      | .error _ => .error ()
      | .ok links => .ok links

/-- State of the crawl loop.  `visited` is the set of fingerprints in
insertion order (a Python `set`; only membership matters), `queue` the
FIFO frontier (head = next to dequeue), `graph` the edge set of
`graph_edges` in insertion order.  Two ghost fields record events for
the specification: `openPages` the URLs whose rendering session
(`context.new_page()`) is open and not yet closed, and `processed` the
URLs for which the renderer (`page.goto`) was invoked, in order. -/
structure CrawlState where
  visited : List String
  queue : List String
  graph : List (String × String)
  openPages : List String
  processed : List String
deriving Repr, DecidableEq

/-- The enqueue filter of the loop body: of the extracted links, those
whose fingerprint is not in the visited set are appended to the
frontier in order (`if hash_url(link) not in visited: queue.append`).
The visited set is not modified inside this loop, so membership is
tested against the pre-iteration visited set. -/
def freshLinks (hashUrl : String → String) (visited : List String) :
    List String → List String
  | [] => []
  | l :: ls =>
    if hashUrl l ∈ visited then freshLinks hashUrl visited ls
    else l :: freshLinks hashUrl visited ls

/-- Adding one edge to the graph with set semantics
(`graph_edges[url].add(link)`): a present edge is left alone. -/
def insertEdge (g : List (String × String)) (e : String × String) :
    List (String × String) :=
  if e ∈ g then g else g ++ [e]

/-- Effect of the link loop on the graph: `graph_edges[url].add(link)`
for each extracted link in order, unconditionally (edges are recorded
for already-visited destinations too). -/
def addEdges (u : String) (g : List (String × String)) :
    List String → List (String × String)
  | [] => g
  | l :: ls => addEdges u (insertEdge g (u, l)) ls

/-- One iteration of the `while` body (lines 116-150): dequeue the
head; discard it when its fingerprint is visited; otherwise open a
page, invoke the renderer, and on success record edges, enqueue
not-yet-visited links, mark the URL visited and close the page.  On
failure (`except` clause) the iteration only logs: the URL is not
marked visited, no edges or frontier entries are added, and the page
opened for it is not closed. -/
def crawlStep (render : String → Option (List String))
    (hashUrl : String → String) (start_url : String)
    (s : CrawlState) : CrawlState :=
  match s.queue with
  | [] => s
  | url :: rest =>
    if hashUrl url ∈ s.visited then { s with queue := rest }
    else
      match processPage start_url render url with
      | .error _ =>
        { s with queue := rest,
                 openPages := s.openPages ++ [url],
                 processed := s.processed ++ [url] }
      | .ok links =>
        { visited := s.visited ++ [hashUrl url]
          queue := rest ++ freshLinks hashUrl s.visited links
          graph := addEdges url s.graph links
          openPages := (s.openPages ++ [url]).erase url
          processed := s.processed ++ [url] }

/-- The crawl loop `while queue and len(visited) < MAX_PAGES`, indexed
by fuel (an upper bound on the number of iterations; the guard, not the
fuel, terminates a finished crawl). -/
def crawlLoop (render : String → Option (List String))
    (hashUrl : String → String) (maxPages : Nat) (start_url : String) :
    Nat → CrawlState → CrawlState
  | 0, s => s
  | fuel + 1, s =>
    if s.queue = [] ∨ maxPages ≤ s.visited.length then s
    else crawlLoop render hashUrl maxPages start_url fuel
      (crawlStep render hashUrl start_url s)

/-- Initial state of `crawl_site`: `visited = set()`,
`queue = deque([start_url])`, everything else empty. -/
def initState (start_url : String) : CrawlState :=
  ⟨[], [start_url], [], [], []⟩

/-- The crawler `crawl_site(start_url)`, run for at most `fuel`
iterations of the loop body. -/
def crawl_site (render : String → Option (List String))
    (hashUrl : String → String) (maxPages : Nat) (start_url : String)
    (fuel : Nat) : CrawlState :=
  crawlLoop render hashUrl maxPages start_url fuel (initState start_url)

/-- Scope invariant of the crawl: every frontier entry is the seed or
was classified in-scope against the seed, and both endpoints of every
recorded edge were classified in-scope against the seed. -/
def ScopeInv (start : String) (s : CrawlState) : Prop :=
  (∀ q ∈ s.queue, q = start ∨ is_internal_link start q = .ok true) ∧
  ∀ e ∈ s.graph, is_internal_link start e.1 = .ok true ∧
    is_internal_link start e.2 = .ok true

-- Sanity checks of the parser model on concrete URLs.
example : urlparseE "https://www.burgerbaeclothing.com/" =
    .ok ⟨"https", "www.burgerbaeclothing.com", "/", "", ""⟩ := rfl
example : urlparseE "http://h/a/b?q=1#f" =
    .ok ⟨"http", "h", "/a/b", "q=1", "f"⟩ := rfl
example : urlparseE "http://[" = .error "Invalid IPv6 URL" := rfl
example : is_internal_link "http://h/x" "http://h/y" = .ok true := rfl
example : is_internal_link "http://h/x" "http://g/y" = .ok false := rfl
example : sanitize_folder_name "http://h/a/b/" = .ok "a_b" := rfl
example : sanitize_folder_name "http://h/" = .ok "index" := rfl

-- Sanity check of the crawl model: a two-page site.
example :
    crawl_site
      (fun u => if u = "http://h/" then some ["http://h/a", "http://g/z"]
                else some [])
      id MAX_PAGES "http://h/" 5 =
    ⟨["http://h/", "http://h/a"], [], [("http://h/", "http://h/a")], [],
     ["http://h/", "http://h/a"]⟩ := rfl

-- Sanity check: a failing page is rendered again when rediscovered.
example :
    crawl_site
      (fun u => if u = "http://h/" then some ["http://h/x", "http://h/x"]
                else none)
      id MAX_PAGES "http://h/" 5 =
    ⟨["http://h/"], [],
     [("http://h/", "http://h/x")], ["http://h/x", "http://h/x"],
     ["http://h/", "http://h/x", "http://h/x"]⟩ := rfl

section Lemmas

/-- Every link kept by the enqueue filter comes from the extracted list
and has an unvisited fingerprint. -/
theorem freshLinks_mem {hashUrl : String → String} {visited : List String}
    {ls : List String} {l : String} (h : l ∈ freshLinks hashUrl visited ls) :
    l ∈ ls ∧ hashUrl l ∉ visited := by
  induction ls with
  | nil => simp [freshLinks] at h
  | cons a as ih =>
    by_cases hv : hashUrl a ∈ visited
    · rw [freshLinks, if_pos hv] at h
      rcases ih h with ⟨h1, h2⟩
      exact ⟨List.mem_cons_of_mem a h1, h2⟩
    · rw [freshLinks, if_neg hv] at h
      rcases List.mem_cons.mp h with rfl | hmem
      · exact ⟨List.mem_cons_self _ _, hv⟩
      · rcases ih hmem with ⟨h1, h2⟩
        exact ⟨List.mem_cons_of_mem a h1, h2⟩

/-- Membership after one set-style edge insertion. -/
theorem insertEdge_mem {g : List (String × String)} {e e0 : String × String}
    (h : e ∈ insertEdge g e0) : e ∈ g ∨ e = e0 := by
  unfold insertEdge at h
  by_cases hm : e0 ∈ g
  · rw [if_pos hm] at h; exact Or.inl h
  · rw [if_neg hm] at h
    rcases List.mem_append.mp h with hg | hs
    · exact Or.inl hg
    · exact Or.inr (List.mem_singleton.mp hs)

/-- Membership after recording the edges of one page: an edge was
already present or connects the page to one of its extracted links. -/
theorem addEdges_mem {u : String} {ls : List String} :
    ∀ {g : List (String × String)} {e : String × String},
      e ∈ addEdges u g ls → e ∈ g ∨ ∃ l ∈ ls, e = (u, l) := by
  induction ls with
  | nil => intro g e h; exact Or.inl h
  | cons a as ih =>
    intro g e h
    rcases ih h with hg | ⟨l, hl, rfl⟩
    · rcases insertEdge_mem hg with hg2 | rfl
      · exact Or.inl hg2
      · exact Or.inr ⟨a, List.mem_cons_self _ _, rfl⟩
    · exact Or.inr ⟨l, List.mem_cons_of_mem a hl, rfl⟩

/-- Every link surviving the internal-link filter was classified
in-scope (the classifier returned `true` without raising). -/
theorem filterInternal_ok_mem {base : String} {ls out : List String}
    (h : filterInternal base ls = .ok out) :
    ∀ l ∈ out, is_internal_link base l = .ok true := by
  induction ls generalizing out with
  | nil =>
    intro l hl
    simp only [filterInternal] at h
    cases h
    simp at hl
  | cons a as ih =>
    intro l hl
    rw [filterInternal] at h
    cases hc : is_internal_link base a with
    | error e => rw [hc] at h; cases h
    | ok b =>
      rw [hc] at h
      cases hr : filterInternal base as with
      | error e => rw [hr] at h; cases h
      | ok rest =>
        rw [hr] at h
        cases h
        cases b with
        | true =>
          rw [if_pos rfl] at hl
          rcases List.mem_cons.mp hl with rfl | hmem
          · exact hc
          · exact ih hr l hmem
        | false =>
          rw [if_neg (by simp)] at hl
          exact ih hr l hl

/-- A classifier verdict means both addresses parsed. -/
theorem is_internal_link_ok {b l : String} {x : Bool}
    (h : is_internal_link b l = .ok x) :
    ∃ rb rl, urlparseE b = .ok rb ∧ urlparseE l = .ok rl ∧
      x = (rb.netloc == rl.netloc) := by
  unfold is_internal_link at h
  cases hb : urlparseE b with
  | error e => rw [hb] at h; cases h
  | ok rb =>
    rw [hb] at h
    cases hl : urlparseE l with
    | error e => rw [hl] at h; cases h
    | ok rl =>
      rw [hl] at h
      cases h
      exact ⟨rb, rl, rfl, rfl, rfl⟩

/-- A URL that parses is in scope of itself. -/
theorem is_internal_link_self {u : String} {r : UrlSplit}
    (h : urlparseE u = .ok r) : is_internal_link u u = .ok true := by
  unfold is_internal_link
  rw [h]
  simp

/-- Successful processing implies the processed URL itself parses
(`sanitize_folder_name` did not raise). -/
theorem processPage_ok_parse {st : String}
    {render : String → Option (List String)} {url : String}
    {links : List String} (h : processPage st render url = .ok links) :
    ∃ r, urlparseE url = .ok r := by
  unfold processPage at h
  cases hr : render url with
  | none => rw [hr] at h; cases h
  | some hrefs =>
    rw [hr] at h
    cases hp : urlparseE url with
    | error e => rw [hp] at h; cases h
    | ok r => exact ⟨r, rfl⟩

/-- Successful processing returns only links classified in-scope
against the seed. -/
theorem processPage_ok_links {st : String}
    {render : String → Option (List String)} {url : String}
    {links : List String} (h : processPage st render url = .ok links) :
    ∀ l ∈ links, is_internal_link st l = .ok true := by
  unfold processPage at h
  split at h
  · cases h
  · split at h
    · cases h
    · split at h
      · cases h
      · rename_i hf
        cases h
        exact filterInternal_ok_mem hf

/-- The loop with no fuel left returns the state unchanged. -/
theorem crawlLoop_zero (render : String → Option (List String))
    (hashUrl : String → String) (m : Nat) (st : String) (s : CrawlState) :
    crawlLoop render hashUrl m st 0 s = s := rfl

/-- Guard equation of the loop. -/
theorem crawlLoop_succ (render : String → Option (List String))
    (hashUrl : String → String) (m : Nat) (st : String) (fuel : Nat)
    (s : CrawlState) :
    crawlLoop render hashUrl m st (fuel + 1) s =
      if s.queue = [] ∨ m ≤ s.visited.length then s
      else crawlLoop render hashUrl m st fuel
        (crawlStep render hashUrl st s) := rfl

/-- When the guard fails (drained frontier or exhausted budget), the
loop stops with the state unchanged, whatever fuel remains. -/
theorem crawlLoop_stop {render : String → Option (List String)}
    {hashUrl : String → String} {m : Nat} {st : String} {s : CrawlState}
    (h : s.queue = [] ∨ m ≤ s.visited.length) (fuel : Nat) :
    crawlLoop render hashUrl m st fuel s = s := by
  cases fuel with
  | zero => rfl
  | succ n => rw [crawlLoop_succ, if_pos h]

/-- Guarded invariant rule for the loop: a predicate preserved by every
iteration executed under the loop guard holds of the final state. -/
theorem crawlLoop_inv {render : String → Option (List String)}
    {hashUrl : String → String} {m : Nat} {st : String}
    (P : CrawlState → Prop)
    (hstep : ∀ s, s.queue ≠ [] → s.visited.length < m → P s →
      P (crawlStep render hashUrl st s)) :
    ∀ fuel s, P s → P (crawlLoop render hashUrl m st fuel s) := by
  intro fuel
  induction fuel with
  | zero => intro s h; exact h
  | succ n ih =>
    intro s h
    rw [crawlLoop_succ]
    by_cases hg : s.queue = [] ∨ m ≤ s.visited.length
    · rw [if_pos hg]; exact h
    · rw [if_neg hg]
      push_neg at hg
      exact ih _ (hstep s hg.1 hg.2 h)

/-- One iteration grows the visited set by at most one fingerprint. -/
theorem crawlStep_visited_length (render : String → Option (List String))
    (hashUrl : String → String) (st : String) (s : CrawlState) :
    (crawlStep render hashUrl st s).visited.length ≤ s.visited.length + 1 := by
  unfold crawlStep
  split
  · exact Nat.le_succ _
  · rename_i x url rest hqe
    by_cases hv : hashUrl url ∈ s.visited
    · rw [if_pos hv]; exact Nat.le_succ _
    · rw [if_neg hv]
      split
      · exact Nat.le_succ _
      · simp

/-- Nodup is preserved by appending a fresh element. -/
theorem nodup_append_singleton {α : Type} {l : List α} {a : α}
    (h : l.Nodup) (ha : a ∉ l) : (l ++ [a]).Nodup := by
  refine h.append (List.nodup_singleton a) ?_
  intro x hx hx2
  rw [List.mem_singleton] at hx2
  subst hx2
  exact ha hx

/-- Iteration equation: empty frontier. -/
theorem crawlStep_eq_nil (render : String → Option (List String))
    (hashUrl : String → String) (st : String) {s : CrawlState}
    (hq : s.queue = []) : crawlStep render hashUrl st s = s := by
  unfold crawlStep
  rw [hq]

/-- Iteration equation: the dequeued head has a visited fingerprint and
is discarded without processing. -/
theorem crawlStep_eq_skip (render : String → Option (List String))
    (hashUrl : String → String) (st : String) {s : CrawlState}
    {url : String} {rest : List String}
    (hq : s.queue = url :: rest) (hv : hashUrl url ∈ s.visited) :
    crawlStep render hashUrl st s = { s with queue := rest } := by
  unfold crawlStep
  rw [hq]
  dsimp only
  rw [if_pos hv]

/-- Iteration equation: processing of the dequeued head raises. -/
theorem crawlStep_eq_fail (render : String → Option (List String))
    (hashUrl : String → String) (st : String) {s : CrawlState}
    {url : String} {rest : List String}
    (hq : s.queue = url :: rest) (hv : hashUrl url ∉ s.visited)
    (hp : processPage st render url = .error ()) :
    crawlStep render hashUrl st s =
      { s with queue := rest,
               openPages := s.openPages ++ [url],
               processed := s.processed ++ [url] } := by
  unfold crawlStep
  rw [hq]
  dsimp only
  rw [if_neg hv, hp]

/-- Iteration equation: processing of the dequeued head succeeds. -/
theorem crawlStep_eq_ok (render : String → Option (List String))
    (hashUrl : String → String) (st : String) {s : CrawlState}
    {url : String} {rest links : List String}
    (hq : s.queue = url :: rest) (hv : hashUrl url ∉ s.visited)
    (hp : processPage st render url = .ok links) :
    crawlStep render hashUrl st s =
      { visited := s.visited ++ [hashUrl url]
        queue := rest ++ freshLinks hashUrl s.visited links
        graph := addEdges url s.graph links
        openPages := (s.openPages ++ [url]).erase url
        processed := s.processed ++ [url] } := by
  unfold crawlStep
  rw [hq]
  dsimp only
  rw [if_neg hv, hp]

/-- The scope invariant is preserved by every guarded iteration. -/
theorem ScopeInv_step (render : String → Option (List String))
    (hashUrl : String → String) (st : String) (s : CrawlState)
    (hInv : ScopeInv st s) : ScopeInv st (crawlStep render hashUrl st s) := by
  cases hq : s.queue with
  | nil => rw [crawlStep_eq_nil render hashUrl st hq]; exact hInv
  | cons url rest =>
    by_cases hv : hashUrl url ∈ s.visited
    · rw [crawlStep_eq_skip render hashUrl st hq hv]
      refine ⟨fun q hmem => ?_, hInv.2⟩
      exact hInv.1 q (by rw [hq]; exact List.mem_cons_of_mem url hmem)
    · cases hp : processPage st render url with
      | error e =>
        rw [crawlStep_eq_fail render hashUrl st hq hv hp]
        refine ⟨fun q hmem => ?_, hInv.2⟩
        exact hInv.1 q (by rw [hq]; exact List.mem_cons_of_mem url hmem)
      | ok links =>
        rw [crawlStep_eq_ok render hashUrl st hq hv hp]
        have hlinks : ∀ l ∈ links, is_internal_link st l = .ok true :=
          processPage_ok_links hp
        have hurl : is_internal_link st url = .ok true := by
          rcases hInv.1 url (by rw [hq]; exact List.mem_cons_self url rest)
            with rfl | hok
          · rcases processPage_ok_parse hp with ⟨r, hr⟩
            exact is_internal_link_self hr
          · exact hok
        constructor
        · intro q hmem
          rcases List.mem_append.mp hmem with hr | hf
          · exact hInv.1 q (by rw [hq]; exact List.mem_cons_of_mem url hr)
          · exact Or.inr (hlinks q (freshLinks_mem hf).1)
        · intro e hmem
          rcases addEdges_mem hmem with hg | ⟨l, hl, rfl⟩
          · exact hInv.2 e hg
          · exact ⟨hurl, hlinks l hl⟩

end Lemmas

/-- Claim C2: at every point during the crawl the visited set holds at
most MAX_PAGES fingerprints (the state after any number of iterations
is `crawl_site … fuel`, for every fuel), and once the visited set has
reached MAX_PAGES the loop dequeues nothing further even from a
non-empty frontier (it returns the state unchanged). -/
theorem crawl_budget_respected (render : String → Option (List String))
    (hashUrl : String → String) (st : String) (fuel : Nat) :
    (crawl_site render hashUrl MAX_PAGES st fuel).visited.length ≤ MAX_PAGES ∧
    ∀ s : CrawlState, MAX_PAGES ≤ s.visited.length →
      crawlLoop render hashUrl MAX_PAGES st fuel s = s := by
  constructor
  · refine crawlLoop_inv (fun s : CrawlState => s.visited.length ≤ MAX_PAGES)
      (fun s hq hlen hP => ?_) fuel (initState st) (by simp [initState])
    exact le_trans (crawlStep_visited_length render hashUrl st s) hlen
  · intro s h
    exact crawlLoop_stop (Or.inr h) fuel

/-- Witness for C2 at a concrete run and a concrete full state: a crawl
of an empty site stays within budget, and from a state with 20 visited
fingerprints the loop dequeues nothing although the frontier is
non-empty. -/
theorem crawl_budget_respected_witness :
    (crawl_site (fun _ => some []) id MAX_PAGES "http://h/" 5).visited.length
        ≤ MAX_PAGES ∧
    crawlLoop (fun _ => some []) id MAX_PAGES "http://h/" 5
        ⟨List.replicate 20 "f", ["http://h/u"], [], [], []⟩ =
      ⟨List.replicate 20 "f", ["http://h/u"], [], [], []⟩ :=
  ⟨(crawl_budget_respected (fun _ => some []) id "http://h/" 5).1,
   (crawl_budget_respected (fun _ => some []) id "http://h/" 5).2
     ⟨List.replicate 20 "f", ["http://h/u"], [], [], []⟩ (by decide)⟩

/-- Claim C1 counterexample: the claim says the renderer is invoked at
most once per distinct fingerprint in every run.  In the run below the
seed links twice to a page whose navigation fails; the failed URL is
not marked visited, the duplicate frontier entry passes the dequeue
check again, and the renderer is invoked twice for the same fingerprint
(the fingerprint function is the identity here, so the count of the URL
in the invocation log counts its fingerprint). -/
theorem crawl_renderer_reinvoked_cex :
    ((crawl_site
        (fun u => if u = "http://h/" then some ["http://h/x", "http://h/x"]
                  else none)
        id MAX_PAGES "http://h/" 3).processed.map id).count "http://h/x"
      = 2 := rfl

/-- Claim C1 (amended): each distinct fingerprint is successfully
processed at most once per run — the visited set, which receives one
entry per successful processing, never holds a duplicate fingerprint.
(The renderer can be re-invoked for a fingerprint only after failed
attempts, as the counterexample shows.) -/
theorem crawl_visited_fingerprints_nodup
    (render : String → Option (List String)) (hashUrl : String → String)
    (m : Nat) (st : String) (fuel : Nat) :
    (crawl_site render hashUrl m st fuel).visited.Nodup := by
  refine crawlLoop_inv (fun s : CrawlState => s.visited.Nodup)
    (fun s hq hlen hP => ?_) fuel (initState st) (by simp [initState])
  unfold crawlStep
  split
  · exact hP
  · rename_i x url rest hqe
    by_cases hv : hashUrl url ∈ s.visited
    · rw [if_pos hv]; exact hP
    · rw [if_neg hv]
      split
      · exact hP
      · exact nodup_append_singleton hP hv

/-- Claim C3 counterexample: the claim says a URL whose processing
fails is marked visited anyway and never retried.  In the run below the
navigation of the linked page fails; its fingerprint is not in the
visited set afterwards, and the page is in fact retried (rendered a
second time from the duplicate frontier entry). -/
theorem crawl_failed_url_not_visited_cex :
    (crawl_site
        (fun u => if u = "http://h/" then some ["http://h/x", "http://h/x"]
                  else none)
        id MAX_PAGES "http://h/" 3).processed =
      ["http://h/", "http://h/x", "http://h/x"] ∧
    id "http://h/x" ∉
      (crawl_site
        (fun u => if u = "http://h/" then some ["http://h/x", "http://h/x"]
                  else none)
        id MAX_PAGES "http://h/" 3).visited :=
  ⟨rfl, by decide⟩

/-- Claim C4 counterexample: the claim says no processed URL sits in
the frontier while its fingerprint is in the visited set.  Here the
seed page holds two anchors to the same child; both are enqueued, the
child is then dequeued and processed, and its leftover duplicate is
still in the frontier while its fingerprint is in the visited set. -/
theorem crawl_frontier_visited_overlap_cex :
    "http://h/a" ∈
      (crawl_site
        (fun u => if u = "http://h/" then some ["http://h/a", "http://h/a"]
                  else some [])
        id MAX_PAGES "http://h/" 2).processed ∧
    "http://h/a" ∈
      (crawl_site
        (fun u => if u = "http://h/" then some ["http://h/a", "http://h/a"]
                  else some [])
        id MAX_PAGES "http://h/" 2).queue ∧
    id "http://h/a" ∈
      (crawl_site
        (fun u => if u = "http://h/" then some ["http://h/a", "http://h/a"]
                  else some [])
        id MAX_PAGES "http://h/" 2).visited := by
  refine ⟨?_, ?_, ?_⟩ <;> decide

/-- Claim C8 counterexample: the claim says the rendering session is
released even when processing raises.  In the run below the two failed
attempts at the linked page leave both of their pages open at the end
of the crawl: the `except` clause never calls `page.close()`. -/
theorem crawl_page_leak_cex :
    (crawl_site
        (fun u => if u = "http://h/" then some ["http://h/x", "http://h/x"]
                  else none)
        id MAX_PAGES "http://h/" 3).openPages =
      ["http://h/x", "http://h/x"] := rfl

/-- Claim C5: every URL present as a key or a destination value of the
crawl graph was classified in-scope (same network authority as the
seed, per is_internal_link), and a URL in the frontier is the seed
itself or was classified in-scope — an anchor to a different host never
enters the frontier or the graph. -/
theorem crawl_graph_and_frontier_in_scope
    (render : String → Option (List String)) (hashUrl : String → String)
    (m : Nat) (st : String) (fuel : Nat) :
    (∀ e ∈ (crawl_site render hashUrl m st fuel).graph,
      is_internal_link st e.1 = .ok true ∧
      is_internal_link st e.2 = .ok true) ∧
    (∀ q ∈ (crawl_site render hashUrl m st fuel).queue,
      q = st ∨ is_internal_link st q = .ok true) := by
  have h := @crawlLoop_inv render hashUrl m st (ScopeInv st)
    (fun s hq hlen hI => ScopeInv_step render hashUrl st s hI) fuel
    (initState st)
    ⟨fun q hmem => Or.inl (List.mem_singleton.mp hmem),
     fun e hmem => absurd hmem (List.not_mem_nil e)⟩
  exact ⟨h.2, h.1⟩

/-- Witness for C5 on a one-edge crawl: both endpoints of the recorded
edge and the enqueued frontier entry are in scope of the seed. -/
theorem crawl_graph_and_frontier_in_scope_witness :
    (is_internal_link "http://h/" "http://h/" = .ok true ∧
     is_internal_link "http://h/" "http://h/a" = .ok true) ∧
    ("http://h/a" = "http://h/" ∨
     is_internal_link "http://h/" "http://h/a" = .ok true) :=
  ⟨(crawl_graph_and_frontier_in_scope
      (fun u => if u = "http://h/" then some ["http://h/a"] else none)
      id MAX_PAGES "http://h/" 1).1 ("http://h/", "http://h/a") (by decide),
   (crawl_graph_and_frontier_in_scope
      (fun u => if u = "http://h/" then some ["http://h/a"] else none)
      id MAX_PAGES "http://h/" 1).2 "http://h/a" (by decide)⟩

/-- Claim C9: when navigation raises on a dequeued unvisited URL, the
iteration changes the crawl state only by the dequeue itself: the
visited set, the graph and the rest of the frontier are untouched, and
the URL's fingerprint stays out of the visited set, leaving it eligible
for a later attempt. -/
theorem crawl_nav_failure_preserves_state
    (render : String → Option (List String)) (hashUrl : String → String)
    (st : String) (s : CrawlState) (url : String) (rest : List String)
    (hq : s.queue = url :: rest) (hv : hashUrl url ∉ s.visited)
    (hr : render url = none) :
    (crawlStep render hashUrl st s).visited = s.visited ∧
    (crawlStep render hashUrl st s).graph = s.graph ∧
    (crawlStep render hashUrl st s).queue = rest ∧
    hashUrl url ∉ (crawlStep render hashUrl st s).visited := by
  have hp : processPage st render url = .error () := by
    unfold processPage
    rw [hr]
  have he := crawlStep_eq_fail render hashUrl st hq hv hp
  exact ⟨by rw [he], by rw [he], by rw [he], by rw [he]; exact hv⟩

/-- Witness for C9: a concrete failing navigation leaves visited,
graph and the remaining frontier unchanged. -/
theorem crawl_nav_failure_preserves_state_witness :
    (crawlStep (fun _ => none) id "http://h/"
      ⟨[], ["http://h/x", "http://h/y"], [], [], []⟩).visited = [] ∧
    (crawlStep (fun _ => none) id "http://h/"
      ⟨[], ["http://h/x", "http://h/y"], [], [], []⟩).graph = [] ∧
    (crawlStep (fun _ => none) id "http://h/"
      ⟨[], ["http://h/x", "http://h/y"], [], [], []⟩).queue =
        ["http://h/y"] ∧
    id "http://h/x" ∉ (crawlStep (fun _ => none) id "http://h/"
      ⟨[], ["http://h/x", "http://h/y"], [], [], []⟩).visited :=
  crawl_nav_failure_preserves_state (fun _ => none) id "http://h/"
    ⟨[], ["http://h/x", "http://h/y"], [], [], []⟩ "http://h/x"
    ["http://h/y"] rfl (by decide) rfl

/-- Claim C3 (amended): on a processing failure the URL is NOT marked
visited — its fingerprint stays out of the visited set, so it may be
retried if rediscovered — while the crawl loop does continue with the
next frontier entry (the failure never aborts the loop). -/
theorem crawl_failure_continues_unvisited
    (render : String → Option (List String)) (hashUrl : String → String)
    (st : String) (m fuel : Nat) (s : CrawlState) (url : String)
    (rest : List String) (hq : s.queue = url :: rest)
    (hv : hashUrl url ∉ s.visited)
    (hp : processPage st render url = .error ())
    (hlen : s.visited.length < m) :
    (crawlStep render hashUrl st s).visited = s.visited ∧
    hashUrl url ∉ (crawlStep render hashUrl st s).visited ∧
    (crawlStep render hashUrl st s).queue = rest ∧
    crawlLoop render hashUrl m st (fuel + 1) s =
      crawlLoop render hashUrl m st fuel (crawlStep render hashUrl st s) := by
  have he := crawlStep_eq_fail render hashUrl st hq hv hp
  refine ⟨by rw [he], by rw [he]; exact hv, by rw [he], ?_⟩
  rw [crawlLoop_succ, if_neg]
  intro h
  rcases h with h1 | h2
  · rw [hq] at h1
    cases h1
  · exact absurd h2 (Nat.not_le.mpr hlen)

/-- Witness for C3 (amended) on a concrete failing navigation. -/
theorem crawl_failure_continues_unvisited_witness :
    (crawlStep (fun _ => none) id "http://g/"
      ⟨[], ["http://g/x", "http://g/y"], [], [], []⟩).visited = [] ∧
    id "http://g/x" ∉ (crawlStep (fun _ => none) id "http://g/"
      ⟨[], ["http://g/x", "http://g/y"], [], [], []⟩).visited ∧
    (crawlStep (fun _ => none) id "http://g/"
      ⟨[], ["http://g/x", "http://g/y"], [], [], []⟩).queue =
        ["http://g/y"] ∧
    crawlLoop (fun _ => none) id MAX_PAGES "http://g/" 1
      ⟨[], ["http://g/x", "http://g/y"], [], [], []⟩ =
    crawlLoop (fun _ => none) id MAX_PAGES "http://g/" 0
      (crawlStep (fun _ => none) id "http://g/"
        ⟨[], ["http://g/x", "http://g/y"], [], [], []⟩) :=
  crawl_failure_continues_unvisited (fun _ => none) id "http://g/"
    MAX_PAGES 0 ⟨[], ["http://g/x", "http://g/y"], [], [], []⟩
    "http://g/x" ["http://g/y"] rfl (by decide) rfl (by decide)

/-- Claim C4 (amended): a URL whose fingerprint is in the visited set
is never NEWLY enqueued — everything one iteration appends to the
frontier has an unvisited fingerprint — and a dequeued entry whose
fingerprint is visited is discarded without reprocessing.  (Duplicate
entries enqueued before the URL was first processed may remain in the
frontier alongside the visited fingerprint, as the counterexample
shows; they are discarded at dequeue time.) -/
theorem crawl_enqueue_only_unvisited
    (render : String → Option (List String)) (hashUrl : String → String)
    (st : String) (s : CrawlState) :
    (∃ new, (crawlStep render hashUrl st s).queue = s.queue.tail ++ new ∧
      ∀ l ∈ new, hashUrl l ∉ s.visited) ∧
    (∀ url rest, s.queue = url :: rest → hashUrl url ∈ s.visited →
      crawlStep render hashUrl st s = { s with queue := rest }) := by
  constructor
  · cases hq : s.queue with
    | nil =>
      refine ⟨[], ?_, fun l hl => absurd hl (List.not_mem_nil l)⟩
      rw [crawlStep_eq_nil render hashUrl st hq, hq]
      simp
    | cons url rest =>
      by_cases hv : hashUrl url ∈ s.visited
      · refine ⟨[], ?_, fun l hl => absurd hl (List.not_mem_nil l)⟩
        rw [crawlStep_eq_skip render hashUrl st hq hv]
        simp
      · cases hp : processPage st render url with
        | error e =>
          cases e
          refine ⟨[], ?_, fun l hl => absurd hl (List.not_mem_nil l)⟩
          rw [crawlStep_eq_fail render hashUrl st hq hv hp]
          simp
        | ok links =>
          refine ⟨freshLinks hashUrl s.visited links, ?_,
            fun l hl => (freshLinks_mem hl).2⟩
          rw [crawlStep_eq_ok render hashUrl st hq hv hp]
          simp
  · intro url rest hq hv
    exact crawlStep_eq_skip render hashUrl st hq hv

/-- Witness for C4 (amended): a frontier entry whose fingerprint is
already visited is dequeued and discarded without reprocessing. -/
theorem crawl_enqueue_only_unvisited_witness :
    crawlStep (fun _ => some []) id "http://h/"
      ⟨["http://h/a"], ["http://h/a"], [], [], []⟩ =
    ⟨["http://h/a"], [], [], [], []⟩ :=
  (crawl_enqueue_only_unvisited (fun _ => some []) id "http://h/"
      ⟨["http://h/a"], ["http://h/a"], [], [], []⟩).2
    "http://h/a" [] rfl (by decide)

/-- Claim C8 (amended): the rendering session opened for a dequeued URL
is closed when that URL's processing completes successfully; when
processing raises, the page is NOT closed and stays open (leaks) for
the rest of the run. -/
theorem crawl_page_closed_iff_success
    (render : String → Option (List String)) (hashUrl : String → String)
    (st : String) (s : CrawlState) (url : String) (rest : List String)
    (hq : s.queue = url :: rest) (hv : hashUrl url ∉ s.visited)
    (hopen : url ∉ s.openPages) :
    (∀ links, processPage st render url = .ok links →
      (crawlStep render hashUrl st s).openPages = s.openPages) ∧
    (processPage st render url = .error () →
      (crawlStep render hashUrl st s).openPages = s.openPages ++ [url]) := by
  constructor
  · intro links hp
    rw [crawlStep_eq_ok render hashUrl st hq hv hp]
    show (s.openPages ++ [url]).erase url = s.openPages
    rw [List.erase_append_right _ hopen]
    simp
  · intro hp
    rw [crawlStep_eq_fail render hashUrl st hq hv hp]

/-- Witness for C8 (amended): a concrete successful iteration closes
its page (no page stays open). -/
theorem crawl_page_closed_iff_success_witness :
    (crawlStep (fun _ => some []) id "http://h/"
      ⟨[], ["http://h/"], [], [], []⟩).openPages = [] :=
  (crawl_page_closed_iff_success (fun _ => some []) id "http://h/"
      ⟨[], ["http://h/"], [], [], []⟩ "http://h/" [] rfl (by decide)
      (by decide)).1 [] rfl

/-- Claim C7 counterexample: the claim says the classifier returns
false rather than raising on any parse failure.  On a base address
whose netloc holds an unmatched bracket, urlparse raises
ValueError("Invalid IPv6 URL") and is_internal_link propagates it
instead of returning false. -/
theorem is_internal_link_raises_cex :
    is_internal_link "http://[" "http://h/a" = .error "Invalid IPv6 URL" ∧
    is_internal_link "http://[" "http://h/a" ≠ .ok false :=
  ⟨rfl, fun h => nomatch h⟩

/-- Claim C7 (amended): the classifier compares the network authority
(netloc) of the two addresses for exact equality whenever both parse,
and on a parse failure of either address it propagates the parse error
(raises) instead of returning false. -/
theorem is_internal_link_netloc_eq (b l : String) :
    (∀ rb rl, urlparseE b = .ok rb → urlparseE l = .ok rl →
      is_internal_link b l = .ok (rb.netloc == rl.netloc)) ∧
    (∀ e, urlparseE b = .error e → is_internal_link b l = .error e) ∧
    (∀ rb e, urlparseE b = .ok rb → urlparseE l = .error e →
      is_internal_link b l = .error e) := by
  refine ⟨fun rb rl hb hl => ?_, fun e hb => ?_, fun rb e hb hl => ?_⟩
  · simp only [is_internal_link, hb, hl]
  · simp only [is_internal_link, hb]
  · simp only [is_internal_link, hb, hl]

/-- Witness for C7 (amended): two parsed same-host addresses compare
equal on their netlocs. -/
theorem is_internal_link_netloc_eq_witness :
    is_internal_link "http://h/a" "http://h/b" = .ok true :=
  (is_internal_link_netloc_eq "http://h/a" "http://h/b").1
    ⟨"http", "h", "/a", "", ""⟩ ⟨"http", "h", "/b", "", ""⟩ rfl rfl

/-- Stripping is invariant under a prepended slash. -/
theorem stripSlashes_cons_slash (cs : List Char) :
    stripSlashes ('/' :: cs) = stripSlashes cs := by
  simp [stripSlashes, List.dropWhile_cons]

/-- Stripping is invariant under an appended slash. -/
theorem stripSlashes_append_slash (cs : List Char) :
    stripSlashes (cs ++ ['/']) = stripSlashes cs := by
  unfold stripSlashes
  rw [List.dropWhile_append]
  by_cases h : (cs.dropWhile (fun c => c == '/')).isEmpty
  · rw [if_pos h]
    have h2 : cs.dropWhile (fun c => c == '/') = [] := by
      simpa using h
    rw [h2]
    simp
  · rw [if_neg h]
    rw [List.reverse_append]
    simp [List.dropWhile_cons]

/-- Claim C10: the derived storage folder name is invariant under
adding a leading or a trailing slash to the URL path (the path is
stripped of surrounding slashes before slashes become underscores); an
empty path maps to the fixed name "index"; consequently two URLs whose
parsed paths differ only by a trailing slash map to the same folder
name. -/
theorem sanitize_folder_name_slash_invariant :
    (∀ p : String, folderOfPath ("/" ++ p) = folderOfPath p ∧
      folderOfPath (p ++ "/") = folderOfPath p) ∧
    folderOfPath "" = "index" ∧
    (∀ u1 u2 r1 r2, urlparseE u1 = .ok r1 → urlparseE u2 = .ok r2 →
      r2.path = r1.path ++ "/" →
      sanitize_folder_name u1 = sanitize_folder_name u2) := by
  have hlead : ∀ p : String, folderOfPath ("/" ++ p) = folderOfPath p := by
    intro p
    unfold folderOfPath
    rw [show ("/" ++ p).toList = '/' :: p.toList from String.data_append "/" p,
      stripSlashes_cons_slash]
  have htrail : ∀ p : String, folderOfPath (p ++ "/") = folderOfPath p := by
    intro p
    unfold folderOfPath
    rw [show (p ++ "/").toList = p.toList ++ ['/'] from String.data_append p "/",
      stripSlashes_append_slash]
  refine ⟨fun p => ⟨hlead p, htrail p⟩, rfl, fun u1 u2 r1 r2 h1 h2 hp => ?_⟩
  simp only [sanitize_folder_name, h1, h2]
  rw [hp, htrail]

/-- Witness for C10: a concrete pair of URLs differing only in a
trailing slash shares its storage folder name. -/
theorem sanitize_folder_name_slash_invariant_witness :
    folderOfPath ("/" ++ "a/b") = folderOfPath "a/b" ∧
    folderOfPath ("a/b" ++ "/") = folderOfPath "a/b" ∧
    sanitize_folder_name "http://h/a" = sanitize_folder_name "http://h/a/" :=
  ⟨(sanitize_folder_name_slash_invariant.1 "a/b").1,
   (sanitize_folder_name_slash_invariant.1 "a/b").2,
   sanitize_folder_name_slash_invariant.2.2 "http://h/a" "http://h/a/"
     ⟨"http", "h", "/a", "", ""⟩ ⟨"http", "h", "/a/", "", ""⟩ rfl rfl rfl⟩

/-- The internal-link filter keeps a list whose members all classify
in scope as true. -/
theorem filterInternal_all_true {base : String} {ls : List String}
    (h : ∀ l ∈ ls, is_internal_link base l = .ok true) :
    filterInternal base ls = .ok ls := by
  induction ls with
  | nil => rfl
  | cons a as ih =>
    have h1 := h a (List.mem_cons_self a as)
    have h2 := ih (fun l hl => h l (List.mem_cons_of_mem a hl))
    unfold filterInternal
    rw [h1, h2]
    simp

/-- Claim C6: the frontier is FIFO and yields breadth-first order.  If
the seed links to children A and B in that order, A links to a page C
not otherwise discovered, B and C are leaves, and the four fingerprints
are distinct, then the processing order is seed, A, B, C — in
particular C is processed after both A and B. -/
theorem crawl_breadth_first_order
    (render : String → Option (List String)) (hashUrl : String → String)
    (m fuel : Nat) (S A B C : String)
    (hm : 4 ≤ m) (hf : 4 ≤ fuel)
    (hnd : [hashUrl S, hashUrl A, hashUrl B, hashUrl C].Nodup)
    (hrS : render S = some [A, B]) (hrA : render A = some [C])
    (hrB : render B = some []) (hrC : render C = some [])
    (hpS : ∃ r, urlparseE S = .ok r)
    (hiA : is_internal_link S A = .ok true)
    (hiB : is_internal_link S B = .ok true)
    (hiC : is_internal_link S C = .ok true) :
    (crawl_site render hashUrl m S fuel).processed = [S, A, B, C] := by
  simp only [List.nodup_cons, List.mem_cons, List.mem_singleton,
    List.not_mem_nil, or_false, not_or, List.nodup_nil, and_true] at hnd
  obtain ⟨⟨hSA, hSB, hSC⟩, ⟨hAB, hAC⟩, hBC, -⟩ := hnd
  have hAS : A ≠ S := fun h => hSA (congrArg hashUrl h).symm
  have hBA : B ≠ A := fun h => hAB (congrArg hashUrl h).symm
  -- the four pages all process successfully
  obtain ⟨rS, hrSok⟩ := hpS
  obtain ⟨-, rA, -, hrAok, -⟩ := is_internal_link_ok hiA
  obtain ⟨-, rB, -, hrBok, -⟩ := is_internal_link_ok hiB
  obtain ⟨-, rC, -, hrCok, -⟩ := is_internal_link_ok hiC
  have hfAB : filterInternal S [A, B] = .ok [A, B] := by
    refine filterInternal_all_true (fun l hl => ?_)
    rcases List.mem_cons.mp hl with rfl | hl2
    · exact hiA
    · rcases List.mem_cons.mp hl2 with rfl | hl3
      · exact hiB
      · exact absurd hl3 (List.not_mem_nil l)
  have hfC : filterInternal S [C] = .ok [C] := by
    refine filterInternal_all_true (fun l hl => ?_)
    rcases List.mem_cons.mp hl with rfl | hl2
    · exact hiC
    · exact absurd hl2 (List.not_mem_nil l)
  have hPS : processPage S render S = .ok [A, B] := by
    simp only [processPage, hrS, hrSok, hfAB]
  have hPA : processPage S render A = .ok [C] := by
    simp only [processPage, hrA, hrAok, hfC]
  have hPB : processPage S render B = .ok [] := by
    simp only [processPage, hrB, hrBok]
    rfl
  have hPC : processPage S render C = .ok [] := by
    simp only [processPage, hrC, hrCok]
    rfl
  -- the four iterations
  have e1 : crawlStep render hashUrl S (initState S) =
      ⟨[hashUrl S], [A, B], [(S, A), (S, B)], [], [S]⟩ := by
    rw [crawlStep_eq_ok render hashUrl S rfl (by simp [initState]) hPS]
    simp [initState, freshLinks, addEdges, insertEdge, Prod.ext_iff, hBA]
  have e2 : crawlStep render hashUrl S
        ⟨[hashUrl S], [A, B], [(S, A), (S, B)], [], [S]⟩ =
      ⟨[hashUrl S, hashUrl A], [B, C], [(S, A), (S, B), (A, C)], [],
        [S, A]⟩ := by
    rw [crawlStep_eq_ok render hashUrl S rfl (by simp [Ne.symm hSA]) hPA]
    simp [freshLinks, addEdges, insertEdge, Prod.ext_iff, Ne.symm hSC, hAS]
  have e3 : crawlStep render hashUrl S
        ⟨[hashUrl S, hashUrl A], [B, C], [(S, A), (S, B), (A, C)], [],
          [S, A]⟩ =
      ⟨[hashUrl S, hashUrl A, hashUrl B], [C],
        [(S, A), (S, B), (A, C)], [], [S, A, B]⟩ := by
    rw [crawlStep_eq_ok render hashUrl S rfl
      (by simp [Ne.symm hSB, Ne.symm hAB]) hPB]
    simp [freshLinks, addEdges]
  have e4 : crawlStep render hashUrl S
        ⟨[hashUrl S, hashUrl A, hashUrl B], [C],
          [(S, A), (S, B), (A, C)], [], [S, A, B]⟩ =
      ⟨[hashUrl S, hashUrl A, hashUrl B, hashUrl C], [],
        [(S, A), (S, B), (A, C)], [], [S, A, B, C]⟩ := by
    rw [crawlStep_eq_ok render hashUrl S rfl
      (by simp [Ne.symm hSC, Ne.symm hAC, Ne.symm hBC]) hPC]
    simp [freshLinks, addEdges]
  -- assemble the run
  obtain ⟨k, hk⟩ := Nat.le.dest hf
  have hkk : fuel = k + 4 := by omega
  subst hkk
  unfold crawl_site
  have gu : ∀ s : CrawlState, s.queue ≠ [] → s.visited.length < 4 →
      ¬(s.queue = [] ∨ m ≤ s.visited.length) := by
    intro s h1 h2 hcon
    rcases hcon with h3 | h4
    · exact h1 h3
    · omega
  rw [show k + 4 = (k + 3) + 1 from rfl, crawlLoop_succ,
    if_neg (gu _ (by simp [initState]) (by simp [initState])), e1]
  rw [show k + 3 = (k + 2) + 1 from rfl, crawlLoop_succ,
    if_neg (gu _ (by simp) (by simp)), e2]
  rw [show k + 2 = (k + 1) + 1 from rfl, crawlLoop_succ,
    if_neg (gu _ (by simp) (by simp)), e3]
  rw [show k + 1 = k + 1 from rfl, crawlLoop_succ,
    if_neg (gu _ (by simp) (by simp)), e4]
  rw [crawlLoop_stop (Or.inl rfl) k]

/-- Witness for C6 on a concrete four-page site: processing order is
seed, first child, second child, grandchild. -/
theorem crawl_breadth_first_order_witness :
    (crawl_site
      (fun u => if u = "http://h/" then some ["http://h/a", "http://h/b"]
                else if u = "http://h/a" then some ["http://h/c"]
                else some [])
      id MAX_PAGES "http://h/" 4).processed =
      ["http://h/", "http://h/a", "http://h/b", "http://h/c"] :=
  crawl_breadth_first_order
    (fun u => if u = "http://h/" then some ["http://h/a", "http://h/b"]
              else if u = "http://h/a" then some ["http://h/c"]
              else some [])
    id MAX_PAGES 4 "http://h/" "http://h/a" "http://h/b" "http://h/c"
    (by decide) (by decide) (by decide) rfl rfl rfl rfl
    ⟨⟨"http", "h", "/", "", ""⟩, rfl⟩ rfl rfl rfl
